import Mathlib

/-!
Shallow embedding of the execution and history subsystem of the `workflow`
repository, together with proofs of the specification claims.

The embedding translates, function by function:
  * `workflow/tools/bash_executor.py`   (`BashExecutor._is_command_allowed`,
    `BashExecutor.execute`)
  * `workflow/tools/python_executor.py` (`PythonExecutor.execute`)
  * `workflow/agents/executor_agent.py` (`ExecutorAgent.execute_workflow`)
  * `workflow/storage/history_store.py` (`HistoryStore.get_executions`,
    `HistoryStore.get_failure_patterns`, `HistoryStore._extract_pattern_key`,
    `HistoryStore.get_stats`)
  * `workflow/storage/models.py`        (the data model)

Conventions of the embedding:
  * Python `str` is Lean `String`; `x in s` (substring test) is `occursIn`;
    `s.split()` is `splitWs`; `s.strip()` is `pyStrip`;
    `s.lower()` is `lowerStr`.
  * `datetime` values are `Nat` instants (only their total order and
    comparisons matter to the verified code).
  * `float` durations computed by `time.time()` differences are oracle
    parameters of type `ℚ`; SQL `AVG` is exact rational averaging.
  * Process side effects (spawn, communicate, kill) are represented by an
    oracle (`RunOutcome`, kill/wait failure flags) describing what the
    operating system did; the functions are pure in the oracle.
  * Python `Optional[T]` is `Option T`; a `try/except` body that can raise
    is a sum-shaped oracle outcome (`RunOutcome.raised`, `DispatchOutcome.raised`).
-/

/-! ## String helpers (Python `in`, `str.split()`, `str.strip()`) -/

/-- Whether the char list `n` is an initial segment of `h`. -/
def startsWithL : List Char → List Char → Bool
  | [], _ => true
  | _ :: _, [] => false
  | a :: as, b :: bs => a == b && startsWithL as bs

/-- Whether the char list `n` occurs contiguously inside `h`
(Python `n in h` on strings). -/
def occursInL (n : List Char) : List Char → Bool
  | [] => n.isEmpty
  | c :: t => startsWithL n (c :: t) || occursInL n t

/-- Python substring test `needle in hay`. -/
def occursIn (needle hay : String) : Bool :=
  occursInL needle.data hay.data

/-- Accumulator pass behind `splitWs`; `cur` holds the current word reversed. -/
def wordsAux (cur : List Char) : List Char → List String
  | [] => if cur.isEmpty then [] else [String.mk cur.reverse]
  | c :: cs =>
    if c.isWhitespace then
      if cur.isEmpty then wordsAux [] cs
      else String.mk cur.reverse :: wordsAux [] cs
    else wordsAux (c :: cur) cs

/-- Python `s.split()`: split on whitespace runs, no empty pieces. -/
def splitWs (s : String) : List String :=
  wordsAux [] s.data

/-- Python `s.strip()`: drop leading and trailing whitespace. -/
def pyStrip (s : String) : String :=
  String.mk (((s.data.dropWhile Char.isWhitespace).reverse.dropWhile
    Char.isWhitespace).reverse)

/-- Python `s.lower()` (ASCII case folding, which covers the keyword table). -/
def lowerStr (s : String) : String :=
  String.mk (s.data.map Char.toLower)

/-! ## Data model (`workflow/storage/models.py`, `workflow/tools/base.py`) -/

/-- The `WorkflowStatus` enum of `models.py`. -/
inductive WorkflowStatus
  | pending
  | running
  | success
  | failed
  | timeout
deriving DecidableEq, Repr

/-- The data dict attached by the executors, holding the exit code and
(for the bash runner) the command. -/
structure ToolData where
  exit_code : Option Int := none
  command : Option String := none
deriving DecidableEq, Repr

/-- The `ToolResult` model of `workflow/tools/base.py`. -/
structure ToolResult where
  success : Bool
  output : Option String := none
  error : Option String := none
  data : Option ToolData := none
  duration : Option ℚ := none
deriving DecidableEq, Repr

/-- The `ExecutionResult` model of `models.py` (`datetime`s are `Nat` instants). -/
structure ExecutionResult where
  workflow_name : String
  status : WorkflowStatus
  started_at : Nat
  finished_at : Option Nat := none
  duration : Option ℚ := none
  exit_code : Option Int := none
  stdout : Option String := none
  stderr : Option String := none
  error_message : Option String := none
deriving DecidableEq, Repr

/-- The `FailurePattern` model of `models.py` (the mined, derived record). -/
structure FailurePattern where
  pattern_type : String
  count : Nat
  last_seen : Nat
  error_messages : List String
deriving DecidableEq, Repr

/-! ## Command Gate (`BashExecutor._is_command_allowed`) -/

/-- Configuration state of a `BashExecutor` instance.  The Python
constructor stores the deny list as a `set`; we keep the construction list,
whose iteration order is one admissible order of the set. -/
structure BashExecutor where
  default_timeout : Nat := 300
  allowed_commands : List String := []
  denied_commands : List String :=
    ["rm -rf /", "sudo rm", "mkfs", "dd if=", ":()\x7b:|:&\x7d;:"]
deriving Repr

/-- The `for denied in self.denied_commands: if denied in command: return ...`
loop: first deny pattern that is a substring of the command. -/
def firstDeniedMatch (denied : List String) (command : String) : Option String :=
  match denied with
  | [] => none
  | d :: rest => if occursIn d command then some d else firstDeniedMatch rest command

/-- Python `command.split()[0] if command.strip() else ""`. -/
def leadingToken (command : String) : String :=
  if pyStrip command = "" then "" else (splitWs command).headD ""

/-- The gate `BashExecutor._is_command_allowed` (bash_executor.py, lines 35-48). -/
def BashExecutor.is_command_allowed (t : BashExecutor) (command : String) :
    Bool × Option String :=
  match firstDeniedMatch t.denied_commands command with
  | some denied => (false, some ("Denied command pattern: " ++ denied))
  | none =>
    if t.allowed_commands ≠ [] then
      if leadingToken command ∉ t.allowed_commands then
        (false, some ("Command not in allowed list: " ++ leadingToken command))
      else (true, none)
    else (true, none)

/-! ### Gate lemmas -/

theorem firstDeniedMatch_eq_none_iff (denied : List String) (command : String) :
    firstDeniedMatch denied command = none ↔
      ∀ d ∈ denied, occursIn d command = false := by
  induction denied with
  | nil => simp [firstDeniedMatch]
  | cons d rest ih =>
    by_cases h : occursIn d command
    · simp [firstDeniedMatch, h]
    · simp only [Bool.not_eq_true] at h
      simp [firstDeniedMatch, h, ih]

theorem firstDeniedMatch_mem_of_eq_some (denied : List String) (command d : String)
    (h : firstDeniedMatch denied command = some d) :
    d ∈ denied ∧ occursIn d command = true := by
  induction denied with
  | nil => simp [firstDeniedMatch] at h
  | cons e rest ih =>
    by_cases he : occursIn e command
    · simp [firstDeniedMatch, he] at h
      subst h; exact ⟨List.mem_cons_self _ _, he⟩
    · simp only [Bool.not_eq_true] at he
      simp [firstDeniedMatch, he] at h
      rcases ih h with ⟨hmem, hocc⟩
      exact ⟨List.mem_cons_of_mem _ hmem, hocc⟩

theorem firstDeniedMatch_isSome (denied : List String) (command d : String)
    (hd : d ∈ denied) (hocc : occursIn d command = true) :
    ∃ e, firstDeniedMatch denied command = some e := by
  induction denied with
  | nil => cases hd
  | cons e rest ih =>
    by_cases he : occursIn e command
    · exact ⟨e, by simp [firstDeniedMatch, he]⟩
    · simp only [Bool.not_eq_true] at he
      rcases List.mem_cons.mp hd with h | h
      · subst h; rw [he] at hocc; cases hocc
      · rcases ih h with ⟨f, hf⟩
        exact ⟨f, by simp [firstDeniedMatch, he, hf]⟩

/-- C1: whenever some configured deny pattern is a substring of the command,
the gate rejects, the reason names a matching deny pattern, and the verdict
does not depend on the allow-list. -/
theorem gate_denies_on_deny_substring (t : BashExecutor) (command d : String)
    (hd : d ∈ t.denied_commands) (hocc : occursIn d command = true) :
    (t.is_command_allowed command).1 = false ∧
      (∃ e ∈ t.denied_commands, occursIn e command = true ∧
        (t.is_command_allowed command).2 =
          some ("Denied command pattern: " ++ e)) ∧
      (∀ allowed : List String,
        ({ t with allowed_commands := allowed } :
            BashExecutor).is_command_allowed command =
          t.is_command_allowed command) := by
  rcases firstDeniedMatch_isSome t.denied_commands command d hd hocc with ⟨e, he⟩
  rcases firstDeniedMatch_mem_of_eq_some _ _ _ he with ⟨hmem, hocce⟩
  refine ⟨?_, ⟨e, hmem, hocce, ?_⟩, ?_⟩
  · simp [BashExecutor.is_command_allowed, he]
  · simp [BashExecutor.is_command_allowed, he]
  · intro allowed
    simp [BashExecutor.is_command_allowed, he]

theorem gate_denies_on_deny_substring_witness :
    (({} : BashExecutor).is_command_allowed "sudo rm -rf /tmp/x").1 = false :=
  (gate_denies_on_deny_substring {} "sudo rm -rf /tmp/x" "sudo rm"
    (by decide) (by decide)).1

/-- C2: when no deny pattern matches, a configured non-empty allow-list
admits exactly the commands whose leading token it contains (rejections name
the program), and with no allow-list configured every such command passes. -/
theorem gate_allow_list_check (t : BashExecutor) (command : String)
    (hno : ∀ d ∈ t.denied_commands, occursIn d command = false) :
    (t.allowed_commands ≠ [] →
      (leadingToken command ∉ t.allowed_commands →
        t.is_command_allowed command =
          (false, some ("Command not in allowed list: " ++ leadingToken command))) ∧
      (leadingToken command ∈ t.allowed_commands →
        t.is_command_allowed command = (true, none))) ∧
    (t.allowed_commands = [] → t.is_command_allowed command = (true, none)) := by
  have hnone : firstDeniedMatch t.denied_commands command = none :=
    (firstDeniedMatch_eq_none_iff _ _).mpr hno
  refine ⟨fun hne => ⟨fun habs => ?_, fun hpres => ?_⟩, fun hnil => ?_⟩
  · simp [BashExecutor.is_command_allowed, hnone, hne, habs]
  · simp [BashExecutor.is_command_allowed, hnone, hne, hpres]
  · simp [BashExecutor.is_command_allowed, hnone, hnil]

theorem gate_allow_list_check_witness :
    ({ allowed_commands := ["ls"] } :
        BashExecutor).is_command_allowed "echo hi" =
      (false, some ("Command not in allowed list: " ++ leadingToken "echo hi")) :=
  ((gate_allow_list_check { allowed_commands := ["ls"] } "echo hi"
    (by decide)).1 (by decide)).1 (by decide)

/-! ## Process runners (`bash_executor.py`, `python_executor.py`)

Process side effects are abstracted by an oracle `ExecEnv` describing what
the operating system did during one invocation; `execute` is a pure function
of the oracle.  Alongside the `ToolResult`, `execute` returns the list of
termination actions it attempted in the timeout handler, so that the
kill/await behaviour is visible in the model. -/

/-- What happened to the spawned child process. -/
inductive RunOutcome
  | completed (exit_code : Int) (stdout stderr : String)
  | timedOut
  | raised (msg : String)
deriving DecidableEq, Repr

/-- Termination actions attempted by the `asyncio.TimeoutError` handler. -/
inductive ProcAction
  | killProc
  | waitChild
deriving DecidableEq, Repr

/-- Oracle for one `execute` invocation.  `checkDur` and `runDur` are the
values of `time.time() - start_time` at the pre-spawn and post-wait return
points respectively. -/
structure ExecEnv where
  workingDirExists : Bool := true
  outcome : RunOutcome := .completed 0 "" ""
  killRaises : Bool := false
  waitRaises : Bool := false
  checkDur : ℚ := 0
  runDur : ℚ := 0
deriving DecidableEq, Repr

/-- The runner `BashExecutor.execute` (bash_executor.py, lines 50-134). -/
def BashExecutor.execute (t : BashExecutor) (command : String)
    (working_dir : Option String) (timeout : Option Nat) (env : ExecEnv) :
    ToolResult × List ProcAction :=
  let gate := t.is_command_allowed command
  if gate.1 = false then
    (⟨false, none, some ("Command blocked: " ++ gate.2.getD "None"), none,
      some env.checkDur⟩, [])
  else if working_dir.isSome && !env.workingDirExists then
    (⟨false, none,
      some ("Working directory does not exist: " ++ working_dir.getD ""), none,
      some env.checkDur⟩, [])
  else
    let timeout_val := timeout.getD t.default_timeout
    match env.outcome with
    | .completed ec out err =>
      (⟨ec == 0, some out, if ec ≠ 0 then some err else none,
        some ⟨some ec, some command⟩, some env.runDur⟩, [])
    | .timedOut =>
      (⟨false, none,
        some ("Command timed out after " ++ toString timeout_val ++ " seconds"),
        none, some env.runDur⟩,
       if env.killRaises then [ProcAction.killProc]
       else [ProcAction.killProc, ProcAction.waitChild])
    | .raised m =>
      (⟨false, none, some ("Execution error: " ++ m), none, some env.runDur⟩, [])

/-- Configuration state of a `PythonExecutor` instance.  `python_path`
defaults to the interpreter of the hosting process (`sys.executable`). -/
structure PythonExecutor where
  default_timeout : Nat := 300
  use_virtualenv : Bool := false
  python_path : String := "python3"
deriving Repr

/-- The helper `PythonExecutor._install_requirements` (python_executor.py,
lines 115-145).  A pip timeout surfaces through `raised` since the bare
`except Exception` there also catches `asyncio.TimeoutError`. -/
def PythonExecutor.install_requirements (t : PythonExecutor)
    (requirements : List String) (env : ExecEnv) : ToolResult :=
  match env.outcome with
  | .completed ec out err =>
    ⟨ec == 0, some out, if ec ≠ 0 then some err else none, none, some env.runDur⟩
  | .timedOut =>
    ⟨false, none, some ("Failed to install requirements: " ++ ""), none,
      some env.runDur⟩
  | .raised m =>
    ⟨false, none, some ("Failed to install requirements: " ++ m), none,
      some env.runDur⟩

/-- The runner `PythonExecutor.execute` (python_executor.py, lines 30-113).  The
temporary script file only carries the code to the child process; its path
does not influence the returned value, and the `finally` cleanup swallows
its own errors, so neither appears in the value-level model. -/
def PythonExecutor.execute (t : PythonExecutor) (code : String)
    (timeout : Option Nat) (requirements : List String)
    (working_dir : Option String) (env pipEnv : ExecEnv) :
    ToolResult × List ProcAction :=
  if requirements ≠ [] ∧
      (t.install_requirements requirements pipEnv).success = false then
    (t.install_requirements requirements pipEnv, [])
  else
    let timeout_val := timeout.getD t.default_timeout
    match env.outcome with
    | .completed ec out err =>
      (⟨ec == 0, some out, if ec ≠ 0 then some err else none,
        some ⟨some ec, none⟩, some env.runDur⟩, [])
    | .timedOut =>
      (⟨false, none,
        some ("Code execution timed out after " ++ toString timeout_val ++
          " seconds"), none, some env.runDur⟩,
       if env.killRaises then [ProcAction.killProc]
       else [ProcAction.killProc, ProcAction.waitChild])
    | .raised m =>
      (⟨false, none, some ("Execution error: " ++ m), none, some env.runDur⟩, [])

/-! ## Execution Coordinator (`ExecutorAgent.execute_workflow`) -/

/-- The `language` argument as the dispatcher sees it: the two enum members
of `WorkflowLanguage`, or (Python being dynamically typed) any other value,
handled by the `else` branch. -/
inductive LangTag
  | bash
  | python
  | other (name : String)
deriving DecidableEq, Repr

/-- What the awaited runner call did: returned a `ToolResult`, or raised. -/
inductive DispatchOutcome
  | ok (r : ToolResult)
  | raised (msg : String)
deriving DecidableEq, Repr

/-- Python `result.data.get("exit_code") if result.data else None`. -/
def toolDataExitCode : Option ToolData → Option Int
  | some d => d.exit_code
  | none => none

/-- The ExecutionResult built after a normal runner return
(executor_agent.py, lines 102-115). -/
def convertToolResult (workflow_name : String) (started_at finished_now : Nat)
    (r : ToolResult) : ExecutionResult :=
  { workflow_name := workflow_name
    status := if r.success then .success else .failed
    started_at := started_at
    finished_at := some finished_now
    duration := r.duration
    exit_code := toolDataExitCode r.data
    stdout := r.output
    stderr := r.error
    error_message := if r.success then none else r.error }

/-- The ExecutionResult built by the fault boundary
(executor_agent.py, lines 117-124). -/
def faultResult (workflow_name : String) (started_at finished_now : Nat)
    (m : String) : ExecutionResult :=
  { workflow_name := workflow_name
    status := .failed
    started_at := started_at
    finished_at := some finished_now
    error_message := some ("Execution error: " ++ m) }

/-- The coordinator `ExecutorAgent.execute_workflow` (executor_agent.py,
lines 57-124).
`runBash` and `runPython` describe what the corresponding runner call would
do; `started_at` and `finished_now` are the two `datetime.now()` readings. -/
def ExecutorAgent.execute_workflow (workflow_name : String) (language : LangTag)
    (runBash runPython : DispatchOutcome) (started_at finished_now : Nat) :
    ExecutionResult :=
  match language with
  | .bash =>
    match runBash with
    | .ok r => convertToolResult workflow_name started_at finished_now r
    | .raised m => faultResult workflow_name started_at finished_now m
  | .python =>
    match runPython with
    | .ok r => convertToolResult workflow_name started_at finished_now r
    | .raised m => faultResult workflow_name started_at finished_now m
  | .other s =>
    { workflow_name := workflow_name
      status := .failed
      started_at := started_at
      finished_at := some finished_now
      error_message := some ("Unsupported language: " ++ s) }

/-! ### Runner and coordinator theorems -/

/-- C3: on normal completion within the timeout, `success = (exit_code == 0)`,
`output` is the captured stdout, `error` is the captured stderr exactly when
the exit code is non-zero, and the coordinator's converted status is
`success` iff the exit code is zero. -/
theorem runner_normal_completion (t : BashExecutor) (command : String)
    (working_dir : Option String) (timeout : Option Nat) (env : ExecEnv)
    (ec : Int) (out err : String)
    (hgate : (t.is_command_allowed command).1 = true)
    (hwd : (working_dir.isSome && !env.workingDirExists) = false)
    (hout : env.outcome = .completed ec out err) :
    ((t.execute command working_dir timeout env).1.success = (ec == 0)) ∧
    ((t.execute command working_dir timeout env).1.output = some out) ∧
    ((t.execute command working_dir timeout env).1.error =
      if ec = 0 then none else some err) ∧
    ((t.execute command working_dir timeout env).1.data =
      some ⟨some ec, some command⟩) ∧
    (∀ wn rp sa fn,
      (ExecutorAgent.execute_workflow wn .bash
          (.ok (t.execute command working_dir timeout env).1) rp sa fn).status =
        .success ↔ ec = 0) := by
  have hr : (t.execute command working_dir timeout env).1 =
      ⟨ec == 0, some out, if ec ≠ 0 then some err else none,
        some ⟨some ec, some command⟩, some env.runDur⟩ := by
    simp [BashExecutor.execute, hgate, hwd, hout]
  refine ⟨by rw [hr], by rw [hr], ?_, by rw [hr], ?_⟩
  · rw [hr]
    by_cases hec : ec = 0 <;> simp [hec]
  · intro wn rp sa fn
    rw [hr]
    by_cases hec : ec = 0 <;>
      simp [ExecutorAgent.execute_workflow, convertToolResult, hec]

theorem runner_normal_completion_witness :
    ((({} : BashExecutor).execute "echo OK" none none
        { outcome := .completed 0 "OK\n" "" }).1.output = some "OK\n") ∧
    ((({} : BashExecutor).execute "echo OK" none none
        { outcome := .completed 0 "OK\n" "" }).1.success = ((0 : Int) == 0)) :=
  ⟨(runner_normal_completion {} "echo OK" none none
      { outcome := .completed 0 "OK\n" "" } 0 "OK\n" ""
      (by decide) (by decide) rfl).2.1,
   (runner_normal_completion {} "echo OK" none none
      { outcome := .completed 0 "OK\n" "" } 0 "OK\n" ""
      (by decide) (by decide) rfl).1⟩

/-- C4: when the wait times out, both runners return `success=false` with an
error naming the bound, carrying the elapsed duration; the timeout handler
attempts a kill, then (when the kill did not raise) a wait, and the returned
result does not depend on whether those attempts raised. -/
theorem runner_timeout_semantics
    (t : BashExecutor) (p : PythonExecutor) (command code : String)
    (working_dir pwd : Option String) (timeout pto : Option Nat)
    (env penv pipEnv : ExecEnv)
    (hgate : (t.is_command_allowed command).1 = true)
    (hwd : (working_dir.isSome && !env.workingDirExists) = false)
    (hto : env.outcome = .timedOut) (hpto : penv.outcome = .timedOut) :
    ((t.execute command working_dir timeout env).1 =
      ⟨false, none, some ("Command timed out after " ++
        toString (timeout.getD t.default_timeout) ++ " seconds"), none,
        some env.runDur⟩) ∧
    ProcAction.killProc ∈ (t.execute command working_dir timeout env).2 ∧
    (env.killRaises = false →
      ProcAction.waitChild ∈ (t.execute command working_dir timeout env).2) ∧
    (∀ b b', (t.execute command working_dir timeout
        { env with killRaises := b, waitRaises := b' }).1 =
      (t.execute command working_dir timeout env).1) ∧
    ((p.execute code pto [] pwd penv pipEnv).1 =
      ⟨false, none, some ("Code execution timed out after " ++
        toString (pto.getD p.default_timeout) ++ " seconds"), none,
        some penv.runDur⟩) ∧
    ProcAction.killProc ∈ (p.execute code pto [] pwd penv pipEnv).2 ∧
    (penv.killRaises = false →
      ProcAction.waitChild ∈ (p.execute code pto [] pwd penv pipEnv).2) ∧
    (∀ b b', (p.execute code pto [] pwd
        { penv with killRaises := b, waitRaises := b' } pipEnv).1 =
      (p.execute code pto [] pwd penv pipEnv).1) := by
  refine ⟨?_, ?_, ?_, ?_, ?_, ?_, ?_, ?_⟩
  · simp [BashExecutor.execute, hgate, hwd, hto]
  · by_cases hk : env.killRaises <;>
      simp [BashExecutor.execute, hgate, hwd, hto, hk]
  · intro hk
    simp [BashExecutor.execute, hgate, hwd, hto, hk]
  · intro b b'
    simp [BashExecutor.execute, hgate, hwd, hto]
  · simp [PythonExecutor.execute, hpto]
  · by_cases hk : penv.killRaises <;>
      simp [PythonExecutor.execute, hpto, hk]
  · intro hk
    simp [PythonExecutor.execute, hpto, hk]
  · intro b b'
    simp [PythonExecutor.execute, hpto]

theorem runner_timeout_semantics_witness :
    ((({} : BashExecutor).execute "sleep 999" none (some 5)
        { outcome := .timedOut, runDur := 5 }).1 =
      ⟨false, none, some ("Command timed out after " ++ toString (5 : Nat) ++
        " seconds"), none, some 5⟩) ∧
    ProcAction.killProc ∈ (({} : BashExecutor).execute "sleep 999" none (some 5)
        { outcome := .timedOut, runDur := 5 }).2 :=
  ⟨(runner_timeout_semantics {} {} "sleep 999" "x" none none (some 5) none
      { outcome := .timedOut, runDur := 5 } { outcome := .timedOut } {}
      (by decide) (by decide) rfl rfl).1,
   (runner_timeout_semantics {} {} "sleep 999" "x" none none (some 5) none
      { outcome := .timedOut, runDur := 5 } { outcome := .timedOut } {}
      (by decide) (by decide) rfl rfl).2.1⟩

/-- C5: an exception during spawn/communicate yields `success=false` with the
exception's message from either runner, and an exception escaping a runner is
converted by the coordinator into a `failed` ExecutionResult carrying the
message — never an unhandled fault. -/
theorem fault_boundary_results
    (t : BashExecutor) (p : PythonExecutor) (command code m : String)
    (working_dir pwd : Option String) (timeout pto : Option Nat)
    (env penv pipEnv : ExecEnv)
    (hgate : (t.is_command_allowed command).1 = true)
    (hwd : (working_dir.isSome && !env.workingDirExists) = false)
    (hre : env.outcome = .raised m) (hpre : penv.outcome = .raised m) :
    ((t.execute command working_dir timeout env).1 =
      ⟨false, none, some ("Execution error: " ++ m), none, some env.runDur⟩) ∧
    ((p.execute code pto [] pwd penv pipEnv).1 =
      ⟨false, none, some ("Execution error: " ++ m), none, some penv.runDur⟩) ∧
    (∀ wn lang rb rp sa fn,
      (lang = LangTag.bash ∧ rb = DispatchOutcome.raised m) ∨
        (lang = LangTag.python ∧ rp = DispatchOutcome.raised m) →
      (ExecutorAgent.execute_workflow wn lang rb rp sa fn).status = .failed ∧
      (ExecutorAgent.execute_workflow wn lang rb rp sa fn).error_message =
        some ("Execution error: " ++ m)) := by
  refine ⟨?_, ?_, ?_⟩
  · simp [BashExecutor.execute, hgate, hwd, hre]
  · simp [PythonExecutor.execute, hpre]
  · rintro wn lang rb rp sa fn (⟨hl, hb⟩ | ⟨hl, hb⟩) <;> subst hl <;> subst hb <;>
      simp [ExecutorAgent.execute_workflow, faultResult]

theorem fault_boundary_results_witness :
    (ExecutorAgent.execute_workflow "wf" LangTag.bash
        (DispatchOutcome.raised "boom") (DispatchOutcome.ok { success := true }) 0 5).status =
      WorkflowStatus.failed :=
  ((fault_boundary_results {} {} "echo hi" "x" "boom" none none none none
      { outcome := .raised "boom" } { outcome := .raised "boom" } {}
      (by decide) (by decide) rfl rfl).2.2 "wf" .bash
      (.raised "boom") (.ok { success := true }) 0 5 (Or.inl ⟨rfl, rfl⟩)).1

/-- C6 (counterexample): on the fault-boundary path and on the
unrecognized-language path the coordinator leaves `duration` unset. -/
theorem coordinator_duration_unset_counterexample :
    (ExecutorAgent.execute_workflow "wf" LangTag.bash
        (DispatchOutcome.raised "boom") (DispatchOutcome.ok { success := true }) 0 5).duration =
      none ∧
    (ExecutorAgent.execute_workflow "wf" (LangTag.other "ruby")
        (DispatchOutcome.ok { success := true }) (DispatchOutcome.ok { success := true }) 0 5).duration =
      none :=
  ⟨rfl, rfl⟩

/-- C6 (amended): every completion path of the coordinator sets
`finished_at`; `duration` is copied from the runner's result on the normal
path and is left unset on the unrecognized-language and fault-boundary
paths. -/
theorem coordinator_finished_at_always (wn : String) (lang : LangTag)
    (rb rp : DispatchOutcome) (sa fn : Nat) :
    (ExecutorAgent.execute_workflow wn lang rb rp sa fn).finished_at = some fn ∧
    (∀ r, (lang = LangTag.bash ∧ rb = DispatchOutcome.ok r) ∨
        (lang = LangTag.python ∧ rp = DispatchOutcome.ok r) →
      (ExecutorAgent.execute_workflow wn lang rb rp sa fn).duration =
        r.duration) ∧
    (∀ m, (lang = LangTag.bash ∧ rb = DispatchOutcome.raised m) ∨
        (lang = LangTag.python ∧ rp = DispatchOutcome.raised m) →
      (ExecutorAgent.execute_workflow wn lang rb rp sa fn).duration = none) ∧
    (∀ s, lang = LangTag.other s →
      (ExecutorAgent.execute_workflow wn lang rb rp sa fn).duration = none) := by
  refine ⟨?_, ?_, ?_, ?_⟩
  · cases lang <;> [cases rb; cases rp; skip] <;>
      simp [ExecutorAgent.execute_workflow, convertToolResult, faultResult]
  · rintro r (⟨hl, hb⟩ | ⟨hl, hb⟩) <;> subst hl <;> subst hb <;>
      simp [ExecutorAgent.execute_workflow, convertToolResult]
  · rintro m (⟨hl, hb⟩ | ⟨hl, hb⟩) <;> subst hl <;> subst hb <;>
      simp [ExecutorAgent.execute_workflow, faultResult]
  · rintro s hl
    subst hl
    simp [ExecutorAgent.execute_workflow]

theorem coordinator_finished_at_always_witness :
    (ExecutorAgent.execute_workflow "wf" LangTag.bash
        (DispatchOutcome.ok ⟨true, none, none, none, some 1⟩)
        (DispatchOutcome.ok { success := true }) 0 7).duration =
      (⟨true, none, none, none, some 1⟩ : ToolResult).duration :=
  (coordinator_finished_at_always "wf" .bash
      (.ok ⟨true, none, none, none, some 1⟩) (.ok { success := true }) 0 7).2.1
    ⟨true, none, none, none, some 1⟩ (Or.inl ⟨rfl, rfl⟩)

/-! ## History Store (`history_store.py`)

The `executions` table is a `List ExecutionResult` in insertion order
(`save_execution` appends exactly the model's fields; reading a row back
reconstructs the same record).  `ORDER BY started_at DESC` is modelled by a
stable insertion sort on the insertion-ordered table, and `LIMIT` by
`List.take`. -/

/-- One stable descending insertion step: `x` (earlier in the input) is
placed before the first element whose key does not exceed `key x`, so equal
keys keep input order. -/
def insertDescBy {α : Type} (key : α → Nat) (x : α) : List α → List α
  | [] => [x]
  | y :: ys => if key y ≤ key x then x :: y :: ys else y :: insertDescBy key x ys

/-- Stable sort, largest `key` first; equal keys keep input order (the model
of both SQL `ORDER BY ... DESC` and Python's stable
`sorted(..., reverse=True)`). -/
def sortDescBy {α : Type} (key : α → Nat) (l : List α) : List α :=
  l.foldr (insertDescBy key) []

theorem mem_insertDescBy {α : Type} (key : α → Nat) (x a : α) (l : List α) :
    a ∈ insertDescBy key x l ↔ a = x ∨ a ∈ l := by
  induction l with
  | nil => simp [insertDescBy]
  | cons y ys ih =>
    by_cases hk : key y ≤ key x
    · simp [insertDescBy, hk]
    · simp [insertDescBy, hk, ih]
      tauto

theorem mem_sortDescBy {α : Type} (key : α → Nat) (a : α) (l : List α) :
    a ∈ sortDescBy key l ↔ a ∈ l := by
  induction l with
  | nil => simp [sortDescBy]
  | cons y ys ih =>
    simp only [sortDescBy, List.foldr_cons] at ih ⊢
    rw [mem_insertDescBy, ih, List.mem_cons]

theorem sorted_insertDescBy {α : Type} (key : α → Nat) (x : α) (l : List α)
    (h : l.Pairwise (fun a b => key b ≤ key a)) :
    (insertDescBy key x l).Pairwise (fun a b => key b ≤ key a) := by
  induction l with
  | nil => simp [insertDescBy]
  | cons y ys ih =>
    rcases List.pairwise_cons.mp h with ⟨hy, hys⟩
    by_cases hk : key y ≤ key x
    · rw [insertDescBy, if_pos hk]
      refine List.pairwise_cons.mpr ⟨?_, h⟩
      intro b hb
      rcases List.mem_cons.mp hb with hb | hb
      · subst hb; exact hk
      · exact le_trans (hy b hb) hk
    · rw [insertDescBy, if_neg hk]
      refine List.pairwise_cons.mpr ⟨?_, ih hys⟩
      intro b hb
      rcases (mem_insertDescBy key x b ys).mp hb with hb | hb
      · subst hb; omega
      · exact hy b hb

theorem sorted_sortDescBy {α : Type} (key : α → Nat) (l : List α) :
    (sortDescBy key l).Pairwise (fun a b => key b ≤ key a) := by
  induction l with
  | nil => simp [sortDescBy]
  | cons y ys ih =>
    simp only [sortDescBy, List.foldr_cons] at ih ⊢
    exact sorted_insertDescBy key y _ ih

theorem filter_insertDescBy {α : Type} (key : α → Nat) (c : Nat) (x : α)
    (l : List α) :
    (insertDescBy key x l).filter (fun a => key a == c) =
      (x :: l).filter (fun a => key a == c) := by
  induction l with
  | nil => simp [insertDescBy]
  | cons y ys ih =>
    by_cases hk : key y ≤ key x
    · rw [insertDescBy, if_pos hk]
    · rw [insertDescBy, if_neg hk]
      by_cases hx : key x = c
      · have hyc : (key y == c) = false := by
          simp only [beq_eq_false_iff_ne, ne_eq]
          omega
        simp only [List.filter_cons, hyc, ih]
        have hxc : (key x == c) = true := by simp [hx]
        simp [hxc]
      · have hxc : (key x == c) = false := by simp [hx]
        simp only [List.filter_cons, hxc, ih]
        simp [List.filter_cons, hxc]

theorem filter_sortDescBy {α : Type} (key : α → Nat) (c : Nat) (l : List α) :
    (sortDescBy key l).filter (fun a => key a == c) =
      l.filter (fun a => key a == c) := by
  induction l with
  | nil => simp [sortDescBy]
  | cons y ys ih =>
    simp only [sortDescBy, List.foldr_cons] at ih ⊢
    rw [filter_insertDescBy, List.filter_cons, List.filter_cons, ih]

/-- The SQL `WHERE` clause of `get_executions`: optional workflow-name and
status filters. -/
def rowMatches (workflow_name : Option String) (status : Option WorkflowStatus)
    (r : ExecutionResult) : Bool :=
  (match workflow_name with
   | some n => decide (r.workflow_name = n)
   | none => true) &&
  (match status with
   | some s => decide (r.status = s)
   | none => true)

/-- The query `HistoryStore.get_executions` (history_store.py, lines
84-132): filter,
order by `started_at` descending, apply `LIMIT`.  SQLite leaves the order of
rows with equal `started_at` unspecified; the model fixes insertion order
(stable sort), the order the append-only table produces in practice. -/
def HistoryStore.get_executions (db : List ExecutionResult)
    (workflow_name : Option String) (status : Option WorkflowStatus)
    (limit : Nat) : List ExecutionResult :=
  (sortDescBy (fun r => r.started_at)
    (db.filter (rowMatches workflow_name status))).take limit

/-- The dict returned by `HistoryStore.get_stats`. -/
structure WorkflowStats where
  total_executions : Nat
  successful : Nat
  failed : Nat
  success_rate : ℚ
  avg_duration : ℚ
deriving DecidableEq, Repr

/-- The aggregation `HistoryStore.get_stats` (history_store.py, lines
219-246).  SQL `AVG`
ignores NULL durations and is NULL on an empty set; `avg_duration or 0`
collapses both NULL and 0.0 to 0, which `Option.getD 0` reproduces. -/
def HistoryStore.get_stats (db : List ExecutionResult) (workflow_name : String) :
    WorkflowStats :=
  let rows := db.filter (fun r => decide (r.workflow_name = workflow_name))
  let total := rows.length
  let successRows := rows.filter (fun r => decide (r.status = WorkflowStatus.success))
  let successes := successRows.length
  let durs := successRows.filterMap (fun r => r.duration)
  let avg_duration : Option ℚ :=
    if durs = [] then none else some (durs.sum / (durs.length : ℚ))
  { total_executions := total
    successful := successes
    failed := total - successes
    success_rate := if total > 0 then (successes : ℚ) / (total : ℚ) * 100 else 0
    avg_duration := avg_duration.getD 0 }

/-- Row constructor used by the concrete examples. -/
def mkRow (w : String) (st : WorkflowStatus) (t : Nat) (dur : Option ℚ)
    (msg : Option String) : ExecutionResult :=
  { workflow_name := w, status := st, started_at := t, duration := dur,
    error_message := msg }

/-- The spec's stats example: 4 executions, 3 successes with durations
1.0s, 2.0s, 3.0s, and 1 failure. -/
def statsExampleDb : List ExecutionResult :=
  [mkRow "wf" .success 1 (some 1) none,
   mkRow "wf" .success 2 (some 2) none,
   mkRow "wf" .success 3 (some 3) none,
   mkRow "wf" .failed 4 none (some "boom")]

theorem length_filter_add_length_filter_not {α : Type} (p : α → Bool)
    (l : List α) :
    (l.filter p).length + (l.filter (fun a => !(p a))).length = l.length := by
  induction l with
  | nil => rfl
  | cons a l ih =>
    by_cases h : p a <;> simp only [List.filter_cons, h] <;> simp_all <;> omega

/-- C7: `success_rate` is 0 on an empty record set, `avg_duration` averages
only success records (appending a non-success record leaves it unchanged)
and is 0 when no success exists; on the spec's 4-record example the stats
are 75.0 and 2.0. -/
theorem get_stats_success_rate_and_avg :
    (∀ (db : List ExecutionResult) (w : String),
      (HistoryStore.get_stats db w).total_executions = 0 →
      (HistoryStore.get_stats db w).success_rate = 0) ∧
    (∀ (db : List ExecutionResult) (w : String),
      (HistoryStore.get_stats db w).successful = 0 →
      (HistoryStore.get_stats db w).avg_duration = 0) ∧
    (∀ (db : List ExecutionResult) (w : String) (r : ExecutionResult),
      r.status ≠ WorkflowStatus.success →
      (HistoryStore.get_stats (db ++ [r]) w).avg_duration =
        (HistoryStore.get_stats db w).avg_duration) ∧
    ((HistoryStore.get_stats statsExampleDb "wf").success_rate = 75 ∧
     (HistoryStore.get_stats statsExampleDb "wf").avg_duration = 2) := by
  refine ⟨?_, ?_, ?_, ?_, ?_⟩
  · intro db w h
    simp only [HistoryStore.get_stats] at h ⊢
    simp [h]
  · intro db w h
    simp only [HistoryStore.get_stats] at h ⊢
    rw [List.length_eq_zero] at h
    simp [h]
  · intro db w r hr
    have step : List.filter (fun x => decide (x.status = WorkflowStatus.success))
        (List.filter (fun x => decide (x.workflow_name = w)) (db ++ [r])) =
        List.filter (fun x => decide (x.status = WorkflowStatus.success))
          (List.filter (fun x => decide (x.workflow_name = w)) db) := by
      rw [List.filter_append, List.filter_append]
      have hnil : List.filter (fun x => decide (x.status = WorkflowStatus.success))
          (List.filter (fun x => decide (x.workflow_name = w)) [r]) = [] := by
        by_cases hw : r.workflow_name = w <;> simp [List.filter, hw, hr]
      rw [hnil, List.append_nil]
    simp only [HistoryStore.get_stats]
    rw [step]
  · simp [HistoryStore.get_stats, statsExampleDb, mkRow]
    norm_num
  · simp [HistoryStore.get_stats, statsExampleDb, mkRow]
    norm_num

theorem get_stats_success_rate_and_avg_witness :
    (HistoryStore.get_stats [] "nope").success_rate = 0 :=
  get_stats_success_rate_and_avg.1 [] "nope" (by decide)

/-- A workflow with one success and one record each of status timeout,
pending, running. -/
def mixedStatusDb : List ExecutionResult :=
  [mkRow "wf" .success 1 (some 1) none,
   mkRow "wf" .timeout 2 none none,
   mkRow "wf" .pending 3 none none,
   mkRow "wf" .running 4 none none]

/-- C10: `failed` is the number of records of the workflow whose status is
anything other than `success` (so timeout/pending/running count as failed),
and `total = successful + failed` always holds. -/
theorem get_stats_failed_complement :
    (∀ (db : List ExecutionResult) (w : String),
      (HistoryStore.get_stats db w).failed =
        ((db.filter (fun r => decide (r.workflow_name = w))).filter
          (fun r => !(decide (r.status = WorkflowStatus.success)))).length ∧
      (HistoryStore.get_stats db w).total_executions =
        (HistoryStore.get_stats db w).successful +
          (HistoryStore.get_stats db w).failed) ∧
    (HistoryStore.get_stats mixedStatusDb "wf").failed = 3 := by
  refine ⟨?_, by decide⟩
  intro db w
  have key := length_filter_add_length_filter_not
    (fun r : ExecutionResult => decide (r.status = WorkflowStatus.success))
    (db.filter (fun r => decide (r.workflow_name = w)))
  constructor
  · simp only [HistoryStore.get_stats]
    omega
  · simp only [HistoryStore.get_stats]
    have hle := List.length_filter_le
      (fun r : ExecutionResult => decide (r.status = WorkflowStatus.success))
      (db.filter (fun r => decide (r.workflow_name = w)))
    omega

/-! ## Pattern Miner (`HistoryStore._extract_pattern_key`,
`HistoryStore.get_failure_patterns`) -/

/-- The normalization `HistoryStore._extract_pattern_key` (history_store.py, lines 193-217). -/
def HistoryStore.extract_pattern_key (error_message : String) : String :=
  let error_lower := lowerStr error_message
  if occursIn "timeout" error_lower then "timeout"
  else if occursIn "connection" error_lower || occursIn "network" error_lower then
    "network_error"
  else if occursIn "permission" error_lower || occursIn "denied" error_lower then
    "permission_error"
  else if occursIn "not found" error_lower || occursIn "404" error_lower then
    "not_found"
  else if occursIn "rate limit" error_lower || occursIn "429" error_lower then
    "rate_limit"
  else if occursIn "authentication" error_lower || occursIn "401" error_lower then
    "auth_error"
  else if occursIn "syntax" error_lower then "syntax_error"
  else if occursIn "import" error_lower || occursIn "module" error_lower then
    "dependency_error"
  else
    match splitWs error_message with
    | [] => "unknown"
    | wrd :: _ => lowerStr wrd

/-- The spec's fixed ordered keyword table: each row is the keyword group
(checked case-insensitively) and the label it produces. -/
def specKeywordTable : List (List String × String) :=
  [(["timeout"], "timeout"),
   (["connection", "network"], "network_error"),
   (["permission", "denied"], "permission_error"),
   (["not found", "404"], "not_found"),
   (["rate limit", "429"], "rate_limit"),
   (["authentication", "401"], "auth_error"),
   (["syntax"], "syntax_error"),
   (["import", "module"], "dependency_error")]

/-- First-match lookup over a keyword table. -/
def firstMatchLabel (lowered : String) :
    List (List String × String) → Option String
  | [] => none
  | (kws, lbl) :: rest =>
    if kws.any (fun k => occursIn k lowered) then some lbl
    else firstMatchLabel lowered rest

/-- The spec's wording of the normalization, for comparison with the
implementation: first-match precedence over `specKeywordTable`, falling back
to the lower-cased first whitespace-delimited token of the message. -/
def specPatternLabel (msg : String) : String :=
  match firstMatchLabel (lowerStr msg) specKeywordTable with
  | some lbl => lbl
  | none =>
    match splitWs msg with
    | [] => "unknown"
    | wrd :: _ => lowerStr wrd

/-- The per-label aggregation dict value, holding count, messages and
last_seen. -/
structure PatternData where
  count : Nat
  messages : List String
  last_seen : Nat
deriving DecidableEq, Repr

/-- In-place update of the entry with key `k` in the insertion-ordered dict
(Python dict update keeps the key's position). -/
def patternsUpdate (k : String) (f : PatternData → PatternData) :
    List (String × PatternData) → List (String × PatternData)
  | [] => []
  | (k', d) :: rest =>
    if k' = k then (k', f d) :: rest else (k', d) :: patternsUpdate k f rest

/-- One iteration of the grouping loop in `get_failure_patterns`
(history_store.py, lines 161-178): skip records with a falsy
(`None` or empty) error message, create the dict entry on first sight of a
label, then bump count, append the message, and raise `last_seen`. -/
def addFailure (patterns : List (String × PatternData))
    (failure : ExecutionResult) : List (String × PatternData) :=
  match failure.error_message with
  | none => patterns
  | some msg =>
    if msg = "" then patterns
    else
      let k := HistoryStore.extract_pattern_key msg
      let patterns' :=
        if patterns.any (fun e => e.1 == k) then patterns
        else patterns ++ [(k, ⟨0, [], failure.started_at⟩)]
      patternsUpdate k (fun d =>
        ⟨d.count + 1, d.messages ++ [msg],
          if d.last_seen < failure.started_at then failure.started_at
          else d.last_seen⟩) patterns'

/-- The miner's input window: the most recent 50 failed records of the
workflow. -/
def minerWindow (db : List ExecutionResult) (workflow_name : String) :
    List ExecutionResult :=
  HistoryStore.get_executions db (some workflow_name)
    (some WorkflowStatus.failed) 50

/-- The miner `HistoryStore.get_failure_patterns` (history_store.py, lines
134-191).
The early `if not failures: return []` coincides with what the generic path
produces on an empty window, so it needs no separate branch. -/
def HistoryStore.get_failure_patterns (db : List ExecutionResult)
    (workflow_name : String) (min_count : Nat) : List FailurePattern :=
  let failures := minerWindow db workflow_name
  let patterns := failures.foldl addFailure []
  let result := patterns.filterMap (fun e =>
    if min_count ≤ e.2.count then
      some ⟨e.1, e.2.count, e.2.last_seen, e.2.messages.take 5⟩
    else none)
  sortDescBy (fun p => p.count) result

/-- The spec's mining example: three failures with messages
"Connection timeout", "Request timeout", "Permission denied". -/
def minerExampleDb : List ExecutionResult :=
  [mkRow "wf" .failed 1 none (some "Connection timeout"),
   mkRow "wf" .failed 2 none (some "Request timeout"),
   mkRow "wf" .failed 3 none (some "Permission denied")]

/-- C8: the implemented normalization equals first-match precedence over the
spec's ordered keyword table with lower-cased-first-token fallback; any
message containing "timeout" (case-insensitively) is labeled `timeout`
regardless of other keywords; and the spec's three-message example mines to
exactly one pattern, `timeout` with count 2. -/
theorem extract_pattern_key_spec :
    (∀ msg, HistoryStore.extract_pattern_key msg = specPatternLabel msg) ∧
    (∀ msg, occursIn "timeout" (lowerStr msg) = true →
      HistoryStore.extract_pattern_key msg = "timeout") ∧
    HistoryStore.get_failure_patterns minerExampleDb "wf" 2 =
      [⟨"timeout", 2, 2, ["Request timeout", "Connection timeout"]⟩] := by
  refine ⟨?_, ?_, by decide⟩
  · intro msg
    unfold HistoryStore.extract_pattern_key specPatternLabel specKeywordTable
    simp only [List.any_cons, List.any_nil, Bool.or_false]
    split_ifs <;> simp_all [firstMatchLabel]
  · intro msg h
    unfold HistoryStore.extract_pattern_key
    simp [h]

theorem extract_pattern_key_spec_witness :
    HistoryStore.extract_pattern_key "Connection timeout" = "timeout" :=
  extract_pattern_key_spec.2.1 "Connection timeout" (by decide)

/-! ### Characterizing the grouping fold (for C9)

The dict built by the grouping loop is characterized extensionally: its keys
are the labels in first-encounter order, and each entry holds the count,
encounter-ordered messages, and maximum timestamp of that label's
occurrences. -/

/-- The (label, message, time) triple a failure contributes to grouping, or
`none` when its error message is falsy (`None` or empty). -/
def failureEntry (r : ExecutionResult) : Option (String × String × Nat) :=
  match r.error_message with
  | none => none
  | some msg =>
    if msg = "" then none
    else some (HistoryStore.extract_pattern_key msg, msg, r.started_at)

/-- The grouping-relevant triples of a record list, in order. -/
def validEntries (xs : List ExecutionResult) : List (String × String × Nat) :=
  xs.filterMap failureEntry

/-- The label sequence of the grouping-relevant records, in order. -/
def entryKeys (xs : List ExecutionResult) : List String :=
  (validEntries xs).map (fun e => e.1)

/-- Keep the first occurrence of each element (Python dict key order). -/
def firstDedup : List String → List String
  | [] => []
  | x :: xs => x :: (firstDedup xs).filter (fun y => y ≠ x)

/-- The (message, time) pairs of the occurrences of label `k`, in order. -/
def occurrencesOf (k : String) (xs : List ExecutionResult) :
    List (String × Nat) :=
  (validEntries xs).filterMap (fun e => if e.1 = k then some e.2 else none)

/-- The aggregated dict entry of label `k`: count, messages in encounter
order, and maximal `started_at` over its occurrences. -/
def dataOf (xs : List ExecutionResult) (k : String) : PatternData :=
  ⟨(occurrencesOf k xs).length,
   (occurrencesOf k xs).map Prod.fst,
   ((occurrencesOf k xs).map Prod.snd).foldl (fun a t => if a < t then t else a) 0⟩

/-- The loop invariant: the accumulator is exactly the characterized dict of
the records processed so far. -/
def charAcc (xs : List ExecutionResult) (acc : List (String × PatternData)) :
    Prop :=
  acc = (firstDedup (entryKeys xs)).map (fun k => (k, dataOf xs k))

theorem mem_firstDedup (a : String) (l : List String) :
    a ∈ firstDedup l ↔ a ∈ l := by
  induction l with
  | nil => simp [firstDedup]
  | cons x xs ih =>
    by_cases hax : a = x
    · simp [firstDedup, hax]
    · simp [firstDedup, List.mem_filter, hax, ih]

theorem nodup_firstDedup (l : List String) : (firstDedup l).Nodup := by
  induction l with
  | nil => simp [firstDedup]
  | cons x xs ih =>
    rw [firstDedup, List.nodup_cons]
    refine ⟨?_, List.Nodup.filter _ ih⟩
    intro hmem
    have := (List.mem_filter.mp hmem).2
    simp at this

theorem firstDedup_append_not_mem (l : List String) (k : String) (h : k ∉ l) :
    firstDedup (l ++ [k]) = firstDedup l ++ [k] := by
  induction l with
  | nil => simp [firstDedup]
  | cons x xs ih =>
    have hkx : k ≠ x := fun e => h (e ▸ List.mem_cons_self x xs)
    have hkxs : k ∉ xs := fun hm => h (List.mem_cons_of_mem _ hm)
    rw [List.cons_append, firstDedup, firstDedup, ih hkxs, List.filter_append]
    simp [hkx]

theorem firstDedup_append_mem (l : List String) (k : String) (h : k ∈ l) :
    firstDedup (l ++ [k]) = firstDedup l := by
  induction l with
  | nil => cases h
  | cons x xs ih =>
    rw [List.cons_append, firstDedup, firstDedup]
    by_cases hx : k ∈ xs
    · rw [ih hx]
    · rcases List.mem_cons.mp h with he | he
      · subst he
        rw [firstDedup_append_not_mem xs k hx, List.filter_append]
        simp
      · exact absurd he hx

theorem entryKeys_append_none (xs : List ExecutionResult) (r : ExecutionResult)
    (h : failureEntry r = none) : entryKeys (xs ++ [r]) = entryKeys xs := by
  simp [entryKeys, validEntries, List.filterMap_append, h]

theorem entryKeys_append_some (xs : List ExecutionResult) (r : ExecutionResult)
    (k : String) (m : String) (t : Nat) (h : failureEntry r = some (k, m, t)) :
    entryKeys (xs ++ [r]) = entryKeys xs ++ [k] := by
  simp [entryKeys, validEntries, List.filterMap_append, h]

theorem occurrencesOf_append_none (xs : List ExecutionResult)
    (r : ExecutionResult) (k : String) (h : failureEntry r = none) :
    occurrencesOf k (xs ++ [r]) = occurrencesOf k xs := by
  simp [occurrencesOf, validEntries, List.filterMap_append, h]

theorem occurrencesOf_append_other (xs : List ExecutionResult)
    (r : ExecutionResult) (k k0 : String) (m : String) (t : Nat)
    (h : failureEntry r = some (k0, m, t)) (hk : k0 ≠ k) :
    occurrencesOf k (xs ++ [r]) = occurrencesOf k xs := by
  simp [occurrencesOf, validEntries, List.filterMap_append, h, hk]

theorem occurrencesOf_append_same (xs : List ExecutionResult)
    (r : ExecutionResult) (k0 : String) (m : String) (t : Nat)
    (h : failureEntry r = some (k0, m, t)) :
    occurrencesOf k0 (xs ++ [r]) = occurrencesOf k0 xs ++ [(m, t)] := by
  simp [occurrencesOf, validEntries, List.filterMap_append, h]

theorem dataOf_append_none (xs : List ExecutionResult) (r : ExecutionResult)
    (k : String) (h : failureEntry r = none) :
    dataOf (xs ++ [r]) k = dataOf xs k := by
  simp [dataOf, occurrencesOf_append_none xs r k h]

theorem dataOf_append_other (xs : List ExecutionResult) (r : ExecutionResult)
    (k k0 : String) (m : String) (t : Nat)
    (h : failureEntry r = some (k0, m, t)) (hk : k0 ≠ k) :
    dataOf (xs ++ [r]) k = dataOf xs k := by
  simp [dataOf, occurrencesOf_append_other xs r k k0 m t h hk]

theorem dataOf_append_same (xs : List ExecutionResult) (r : ExecutionResult)
    (k0 : String) (m : String) (t : Nat) (h : failureEntry r = some (k0, m, t)) :
    dataOf (xs ++ [r]) k0 =
      ⟨(dataOf xs k0).count + 1, (dataOf xs k0).messages ++ [m],
        if (dataOf xs k0).last_seen < t then t else (dataOf xs k0).last_seen⟩ := by
  simp [dataOf, occurrencesOf_append_same xs r k0 m t h, List.foldl_append]

theorem occurrencesOf_eq_nil (xs : List ExecutionResult) (k : String)
    (h : k ∉ entryKeys xs) : occurrencesOf k xs = [] := by
  rw [occurrencesOf, List.filterMap_eq_nil_iff]
  intro e he
  have : e.1 ≠ k := by
    intro hek
    exact h (hek ▸ List.mem_map_of_mem (fun e => e.1) he)
  simp [this]

theorem patternsUpdate_map (ks : List String) (g : String → PatternData)
    (k : String) (f : PatternData → PatternData) (hk : ks.Nodup) :
    patternsUpdate k f (ks.map (fun j => (j, g j))) =
      ks.map (fun j => (j, if j = k then f (g j) else g j)) := by
  induction ks with
  | nil => rfl
  | cons a ks ih =>
    rcases List.nodup_cons.mp hk with ⟨ha, hks⟩
    by_cases hak : a = k
    · subst hak
      rw [List.map_cons, patternsUpdate, if_pos rfl, List.map_cons, if_pos rfl]
      congr 1
      apply List.map_congr_left
      intro j hj
      have : j ≠ a := fun e => ha (e ▸ hj)
      simp [this]
    · rw [List.map_cons, patternsUpdate, if_neg hak, ih hks, List.map_cons,
        if_neg hak]

theorem patternsUpdate_append_fresh (acc : List (String × PatternData))
    (k : String) (f : PatternData → PatternData) (d0 : PatternData)
    (h : ∀ e ∈ acc, e.1 ≠ k) :
    patternsUpdate k f (acc ++ [(k, d0)]) = acc ++ [(k, f d0)] := by
  induction acc with
  | nil => simp [patternsUpdate]
  | cons e acc ih =>
    obtain ⟨k', d⟩ := e
    have he : k' ≠ k := h (k', d) (List.mem_cons_self _ _)
    rw [List.cons_append, patternsUpdate, if_neg he,
      ih (fun e' he' => h e' (List.mem_cons_of_mem _ he'))]
    rfl

theorem any_keys_iff (ks : List String) (g : String → PatternData)
    (k : String) :
    ((ks.map (fun j => (j, g j))).any (fun e => e.1 == k) = true) ↔ k ∈ ks := by
  simp [List.any_map, List.any_eq_true, Function.comp]

theorem charAcc_step (xs : List ExecutionResult) (r : ExecutionResult)
    (acc : List (String × PatternData)) (h : charAcc xs acc) :
    charAcc (xs ++ [r]) (addFailure acc r) := by
  unfold charAcc at h ⊢
  rcases hm : r.error_message with _ | msg
  · have hfe : failureEntry r = none := by simp [failureEntry, hm]
    have haf : addFailure acc r = acc := by simp [addFailure, hm]
    rw [haf, h, entryKeys_append_none xs r hfe]
    apply List.map_congr_left
    intro j hj
    rw [dataOf_append_none xs r j hfe]
  · by_cases hms : msg = ""
    · have hfe : failureEntry r = none := by simp [failureEntry, hm, hms]
      have haf : addFailure acc r = acc := by simp [addFailure, hm, hms]
      rw [haf, h, entryKeys_append_none xs r hfe]
      apply List.map_congr_left
      intro j hj
      rw [dataOf_append_none xs r j hfe]
    · have hfe : failureEntry r =
          some (HistoryStore.extract_pattern_key msg, msg, r.started_at) := by
        simp [failureEntry, hm, hms]
      by_cases hkmem : HistoryStore.extract_pattern_key msg ∈ entryKeys xs
      · have hany : (acc.any
            (fun e => e.1 == HistoryStore.extract_pattern_key msg)) = true := by
          rw [h]
          exact (any_keys_iff _ _ _).mpr ((mem_firstDedup _ _).mpr hkmem)
        have haf : addFailure acc r =
            patternsUpdate (HistoryStore.extract_pattern_key msg)
              (fun d => ⟨d.count + 1, d.messages ++ [msg],
                if d.last_seen < r.started_at then r.started_at
                else d.last_seen⟩) acc := by
          simp [addFailure, hm, hms, hany]
        rw [haf, h, patternsUpdate_map _ _ _ _ (nodup_firstDedup _),
          entryKeys_append_some xs r _ _ _ hfe,
          firstDedup_append_mem _ _ hkmem]
        apply List.map_congr_left
        intro j hj
        by_cases hjk : j = HistoryStore.extract_pattern_key msg
        · subst hjk
          rw [if_pos rfl, dataOf_append_same xs r _ _ _ hfe]
        · rw [if_neg hjk,
            dataOf_append_other xs r j _ _ _ hfe (fun e => hjk e.symm)]
      · have hany : (acc.any
            (fun e => e.1 == HistoryStore.extract_pattern_key msg)) = false := by
          rw [h]
          rw [Bool.eq_false_iff]
          intro hc
          exact hkmem ((mem_firstDedup _ _).mp ((any_keys_iff _ _ _).mp hc))
        have hfresh : ∀ e ∈ acc, e.1 ≠ HistoryStore.extract_pattern_key msg := by
          rw [h]
          rintro e he hek
          rcases List.mem_map.mp he with ⟨j, hjmem, hje⟩
          rw [← hje] at hek
          exact hkmem ((mem_firstDedup _ _).mp (hek ▸ hjmem))
        have haf : addFailure acc r =
            acc ++ [(HistoryStore.extract_pattern_key msg,
              ⟨1, [msg], r.started_at⟩)] := by
          simp only [addFailure, hm, if_neg hms, hany, Bool.false_eq_true,
            if_neg, ite_false]
          rw [patternsUpdate_append_fresh _ _ _ _ hfresh]
          simp
        rw [haf, h, entryKeys_append_some xs r _ _ _ hfe,
          firstDedup_append_not_mem _ _ hkmem, List.map_append]
        congr 1
        · apply List.map_congr_left
          intro j hj
          rw [dataOf_append_other xs r j _ _ _ hfe]
          intro hje
          exact hkmem (hje ▸ (mem_firstDedup _ _).mp hj)
        · simp only [List.map_cons, List.map_nil]
          have hocc : occurrencesOf (HistoryStore.extract_pattern_key msg)
              (xs ++ [r]) = [(msg, r.started_at)] := by
            rw [occurrencesOf_append_same xs r _ _ _ hfe,
              occurrencesOf_eq_nil xs _ hkmem]
            rfl
          rw [dataOf, hocc]
          simp only [List.length_cons, List.length_nil, List.map_cons,
            List.map_nil, List.foldl_cons, List.foldl_nil]
          have harith : (if 0 < r.started_at then r.started_at else 0) =
              r.started_at := by
            split <;> omega
          rw [harith]

theorem charAcc_foldl (fs : List ExecutionResult) :
    ∀ (xs : List ExecutionResult) (acc : List (String × PatternData)),
      charAcc xs acc → charAcc (xs ++ fs) (fs.foldl addFailure acc) := by
  induction fs with
  | nil =>
    intro xs acc h
    simpa using h
  | cons r fs ih =>
    intro xs acc h
    have h' := ih (xs ++ [r]) (addFailure acc r) (charAcc_step xs r acc h)
    simpa [List.append_assoc] using h'

theorem foldl_addFailure_char (fs : List ExecutionResult) :
    fs.foldl addFailure [] =
      (firstDedup (entryKeys fs)).map (fun k => (k, dataOf fs k)) := by
  have h0 : charAcc [] [] := by
    unfold charAcc
    simp [entryKeys, validEntries, firstDedup]
  have h := charAcc_foldl fs [] [] h0
  unfold charAcc at h
  simpa using h

/-- The surviving patterns in label-encounter order, read off the
characterized dict: one `FailurePattern` per label whose occurrence count
reaches `min_count`, carrying the count, the maximal timestamp, and the
first five messages in encounter order. -/
def survivorPatterns (window : List ExecutionResult) (min_count : Nat) :
    List FailurePattern :=
  (firstDedup (entryKeys window)).filterMap (fun k =>
    if min_count ≤ (dataOf window k).count then
      some ⟨k, (dataOf window k).count, (dataOf window k).last_seen,
        (dataOf window k).messages.take 5⟩
    else none)

theorem get_failure_patterns_eq_sorted_survivors (db : List ExecutionResult)
    (w : String) (m : Nat) :
    HistoryStore.get_failure_patterns db w m =
      sortDescBy (fun p => p.count) (survivorPatterns (minerWindow db w) m) := by
  simp only [HistoryStore.get_failure_patterns, survivorPatterns]
  rw [foldl_addFailure_char, List.filterMap_map]
  rfl

/-- C9: the miner's output is exactly the stable count-descending sort of
the surviving labels taken in encounter order over the 50-record window;
hence it is sorted by count, ties keep encounter order (filtering any fixed
count gives the encounter-ordered sublist), every pattern meets `min_count`,
and its messages are the first ≤5 messages of that label in the window,
records with a falsy error message contributing nothing. -/
theorem get_failure_patterns_window_spec (db : List ExecutionResult)
    (w : String) (m : Nat) :
    HistoryStore.get_failure_patterns db w m =
      sortDescBy (fun p => p.count) (survivorPatterns (minerWindow db w) m) ∧
    (HistoryStore.get_failure_patterns db w m).Pairwise
      (fun p q => q.count ≤ p.count) ∧
    (∀ c, (HistoryStore.get_failure_patterns db w m).filter
        (fun p => p.count == c) =
      (survivorPatterns (minerWindow db w) m).filter (fun p => p.count == c)) ∧
    (∀ p ∈ HistoryStore.get_failure_patterns db w m,
      m ≤ p.count ∧
      p.error_messages.length ≤ 5 ∧
      p.count = (occurrencesOf p.pattern_type (minerWindow db w)).length ∧
      p.error_messages =
        ((occurrencesOf p.pattern_type (minerWindow db w)).map Prod.fst).take 5) := by
  have hmain := get_failure_patterns_eq_sorted_survivors db w m
  refine ⟨hmain, ?_, ?_, ?_⟩
  · rw [hmain]
    exact sorted_sortDescBy _ _
  · intro c
    rw [hmain]
    exact filter_sortDescBy _ c _
  · intro p hp
    rw [hmain] at hp
    rw [mem_sortDescBy] at hp
    rcases List.mem_filterMap.mp hp with ⟨k, hkmem, hk⟩
    by_cases hc : m ≤ (dataOf (minerWindow db w) k).count
    · rw [if_pos hc] at hk
      cases hk
      refine ⟨hc, ?_, rfl, rfl⟩
      exact le_trans (List.length_take_le _ _) (le_refl 5)
    · rw [if_neg hc] at hk
      cases hk

theorem get_failure_patterns_window_spec_witness :
    2 ≤ 2 ∧
    (["Request timeout", "Connection timeout"] : List String).length ≤ 5 ∧
    2 = (occurrencesOf "timeout" (minerWindow minerExampleDb "wf")).length ∧
    (["Request timeout", "Connection timeout"] : List String) =
      ((occurrencesOf "timeout" (minerWindow minerExampleDb "wf")).map
        Prod.fst).take 5 :=
  (get_failure_patterns_window_spec minerExampleDb "wf" 2).2.2.2
    ⟨"timeout", 2, 2, ["Request timeout", "Connection timeout"]⟩ (by decide)
